import Mathlib

/-!
A verification development for `contrib/scripts/notemapgen.py`, a script that
writes a test notemap file.  The script is embedded shallowly: each
`file.write(...)` argument becomes a Lean `String`, the file content after a
successful run is the left fold of string append over the writes (mode "w"
truncates the file first), and the fallible execution of the script is a step
function over its file operations in program order.
-/

set_option maxRecDepth 40000

namespace Notemapgen

/-- The name passed to `open("test.notemap", "w")`; `file.name` returns it. -/
def fileName : String := "test.notemap"

/-- The first write: `file.write("Test notemap file: " + file.name + "\n\n")`. -/
def headerWrite : String := "Test notemap file: " ++ fileName ++ "\n\n"

/-- The five writes of one loop iteration, for loop variable `x`
(source lines 29-33). -/
def blockWrites (x : Nat) : List String :=
  [ "[Drum " ++ toString x ++ "]\n\n"
  , "dev-name = \"Dev note " ++ toString x ++ "\"\n"
  , "gm-name = \"GM note " ++ toString (x - 12) ++ "\"\n"
  , "dev-note = " ++ toString x ++ "\n"
  , "gm-note = " ++ toString (x - 12) ++ "\n\n" ]

/-- The loop range `range(12, 128)`: 128 - 12 consecutive integers from 12. -/
def loopRange : List Nat := List.range' 12 (128 - 12)

/-- The final write: `file.write("# vim: sw=4 ts=4 wm=4 et ft=dosini")`. -/
def trailerWrite : String := "# vim: sw=4 ts=4 wm=4 et ft=dosini"

/-- All write calls of the script, in program order. -/
def allWrites : List String :=
  headerWrite :: (loopRange.map blockWrites).flatten ++ [trailerWrite]

/-- The content of `test.notemap` after a successful run: the file is opened
in mode "w", so its content starts empty and each write appends its string. -/
def notemapOutput : String := allWrites.foldl (fun c w => c ++ w) ""

/-- Splitting a character list into its '\n'-separated lines, the final line
being the (possibly empty) unterminated tail. -/
def splitLines : List Char → List (List Char)
  | [] => [[]]
  | c :: cs =>
    if c = '\n' then [] :: splitLines cs
    else
      match splitLines cs with
      | [] => [[c]]
      | l :: ls => (c :: l) :: ls

/-- The lines of the generated file. -/
def fileLines : List (List Char) := splitLines notemapOutput.data

/-- The block lines the specification describes for `[Drum N]`: the header
line, a blank line, the four key-value lines, and a closing blank line. -/
def claimBlockLines (N : Nat) : List (List Char) :=
  [ ("[Drum " ++ toString N ++ "]").data
  , []
  , ("dev-name = \"Dev note " ++ toString N ++ "\"").data
  , ("gm-name = \"GM note " ++ toString (N - 12) ++ "\"").data
  , ("dev-note = " ++ toString N).data
  , ("gm-note = " ++ toString (N - 12)).data
  , [] ]

/-- The full expected line sequence of the file: the header line, a blank
line, the 116 drum blocks, and the unterminated vim modeline. -/
def specLines : List (List Char) :=
  ("Test notemap file: test.notemap").data :: ([] : List Char) ::
    ((loopRange.map claimBlockLines).flatten ++
      [("# vim: sw=4 ts=4 wm=4 et ft=dosini").data])

/-- Joining lines with single '\n' separators and no trailing newline. -/
def joinLines : List (List Char) → List Char
  | [] => []
  | [l] => l
  | l :: ls => l ++ '\n' :: joinLines ls

set_option maxHeartbeats 1000000 in
theorem blockChunk_eq : ∀ x ∈ loopRange,
    ((blockWrites x).map String.data).flatten =
      ((claimBlockLines x).map (fun l => l ++ ['\n'])).flatten := by
  decide

theorem data_foldl (l : List String) : ∀ s : String,
    (l.foldl (fun c w => c ++ w) s).data = s.data ++ (l.map String.data).flatten := by
  induction l with
  | nil => intro s; simp
  | cons w l ih => intro s; simp [ih, String.data_append]

theorem notemapOutput_data :
    notemapOutput.data =
      headerWrite.data ++
        ((loopRange.map (fun x => ((blockWrites x).map String.data).flatten)).flatten ++
          trailerWrite.data) := by
  simp [notemapOutput, data_foldl, allWrites, List.flatten_flatten,
    Function.comp_def]

theorem joinLines_cons (l : List Char) (ls : List (List Char)) (h : ls ≠ []) :
    joinLines (l :: ls) = l ++ '\n' :: joinLines ls := by
  cases ls with
  | nil => exact absurd rfl h
  | cons m ms => rfl

theorem joinLines_append (l₁ l₂ : List (List Char)) (h : l₂ ≠ []) :
    joinLines (l₁ ++ l₂) = (l₁.map (fun l => l ++ ['\n'])).flatten ++ joinLines l₂ := by
  induction l₁ with
  | nil => simp
  | cons l ls ih =>
    have h2 : ls ++ l₂ ≠ [] := by
      cases ls <;> simp [h]
    rw [List.cons_append, joinLines_cons _ _ h2, ih]
    simp [List.append_assoc]

theorem splitLines_of_not_mem (l : List Char) (h : '\n' ∉ l) : splitLines l = [l] := by
  induction l with
  | nil => rfl
  | cons c cs ih =>
    have hc : ¬ (c = '\n') := fun e => h (e ▸ List.mem_cons_self c cs)
    have hcs : '\n' ∉ cs := fun m => h (List.mem_cons_of_mem _ m)
    simp [splitLines, hc, ih hcs]

theorem splitLines_append (l r : List Char) (h : '\n' ∉ l) :
    splitLines (l ++ '\n' :: r) = l :: splitLines r := by
  induction l with
  | nil => simp [splitLines]
  | cons c cs ih =>
    have hc : ¬ (c = '\n') := fun e => h (e ▸ List.mem_cons_self c cs)
    have hcs : '\n' ∉ cs := fun m => h (List.mem_cons_of_mem _ m)
    simp [splitLines, hc, ih hcs]

theorem splitLines_joinLines :
    ∀ ls : List (List Char), ls ≠ [] → (∀ l ∈ ls, '\n' ∉ l) →
      splitLines (joinLines ls) = ls := by
  intro ls
  induction ls with
  | nil => intro h; exact absurd rfl h
  | cons l ls ih =>
    intro _ hall
    cases ls with
    | nil =>
      simpa [joinLines] using splitLines_of_not_mem l (hall l (by simp))
    | cons m ms =>
      rw [joinLines_cons _ _ (by simp), splitLines_append _ _ (hall l (by simp)),
        ih (by simp) (fun x hx => hall x (List.mem_cons_of_mem _ hx))]

theorem count_newline_joinLines :
    ∀ ls : List (List Char), ls ≠ [] → (∀ l ∈ ls, '\n' ∉ l) →
      (joinLines ls).count '\n' = ls.length - 1 := by
  intro ls
  induction ls with
  | nil => intro h; exact absurd rfl h
  | cons l ls ih =>
    intro _ hall
    cases ls with
    | nil =>
      simp [joinLines, List.count_eq_zero.2 (hall l (by simp))]
    | cons m ms =>
      rw [joinLines_cons _ _ (by simp)]
      have h1 : (l : List Char).count '\n' = 0 :=
        List.count_eq_zero.2 (hall l (by simp))
      have h2 := ih (by simp) (fun x hx => hall x (List.mem_cons_of_mem _ hx))
      simp [List.count_append, List.count_cons, h1, h2]

set_option maxHeartbeats 1000000 in
theorem noNewline_block : ∀ x ∈ loopRange, ∀ l ∈ claimBlockLines x, '\n' ∉ l := by
  decide

theorem noNewline_specLines : ∀ l ∈ specLines, '\n' ∉ l := by
  intro l hl
  simp only [specLines, List.mem_cons, List.mem_append, List.mem_flatten,
    List.mem_map, List.mem_singleton] at hl
  rcases hl with h | h | ⟨ls, ⟨x, hx, rfl⟩, hls⟩ | h | h
  · subst h; decide
  · subst h; simp
  · exact noNewline_block x hx l hls
  · subst h; decide
  · simp at h

theorem output_eq_joinLines : notemapOutput.data = joinLines specLines := by
  have hmid : (loopRange.map (fun x => ((blockWrites x).map String.data).flatten)).flatten
      = (loopRange.map
          (fun x => ((claimBlockLines x).map (fun l => l ++ ['\n'])).flatten)).flatten :=
    congrArg List.flatten (List.map_congr_left blockChunk_eq)
  have hspec : specLines =
      (("Test notemap file: test.notemap").data :: ([] : List Char) ::
        (loopRange.map claimBlockLines).flatten) ++
        [("# vim: sw=4 ts=4 wm=4 et ft=dosini").data] := by
    simp [specLines]
  have hhdr : headerWrite.data =
      ("Test notemap file: test.notemap").data ++ ['\n'] ++ ['\n'] := by decide
  rw [hspec, joinLines_append _ _ (by simp), notemapOutput_data, hmid, hhdr]
  simp [joinLines, List.map_flatten, List.flatten_flatten, List.map_map, Function.comp_def,
    List.append_assoc, trailerWrite]

theorem fileLines_eq : fileLines = specLines := by
  rw [fileLines, output_eq_joinLines,
    splitLines_joinLines specLines (by simp [specLines]) noNewline_specLines]

/-- A file system: a finite map from file names to contents. -/
def FileSystem : Type := String → Option String

/-- The effect of one run of the script on the file system: `open(name, "w")`
truncates `test.notemap` to empty content, each write appends its string, and
`close` leaves the content unchanged, so the final content is
`notemapOutput`.  The script reads no file and touches no other name. -/
def runScript (fs : FileSystem) : FileSystem :=
  fun n => if n = fileName then some notemapOutput else fs n

set_option linter.unusedVariables false in
/-- The script with its invocation context made explicit: it never mentions
`sys.argv` and never reads `os.environ` (it imports `os`, `string` and `sys`
but uses none of them), so its effect ignores both arguments. -/
def runScriptFull (argv : List String) (env : String → Option String)
    (fs : FileSystem) : FileSystem :=
  runScript fs

/-- The file operations the script performs: one handle acquisition
(`open`), one `write` per write call, one release (`close`). -/
inductive FileOp : Type where
  | opAcquire : FileOp
  | opWrite : String → FileOp
  | opRelease : FileOp
deriving DecidableEq

/-- The operations of the script in program order: `open`, the 582 writes,
then `close`. -/
def scriptOps : List FileOp :=
  FileOp.opAcquire :: allWrites.map FileOp.opWrite ++ [FileOp.opRelease]

/-- Run a list of operations under a failure oracle: `fail n = some e` means
the `n`-th remaining operation raises the error `e`.  The result is the list
of operations that completed, with `some e` for the first raised error or
`none` on clean completion.  The script has no try/except, so execution
stops at the first failure and the error is neither caught nor altered. -/
def execOps (fail : Nat → Option String) : List FileOp → List FileOp × Option String
  | [] => ([], none)
  | op :: ops =>
    match fail 0 with
    | some e => ([], some e)
    | none =>
      let r := execOps (fun n => fail (n + 1)) ops
      (op :: r.1, r.2)

theorem execOps_ok : ∀ (ops : List FileOp) (fail : Nat → Option String),
    (∀ i, i < ops.length → fail i = none) → execOps fail ops = (ops, none) := by
  intro ops
  induction ops with
  | nil => intro fail _; rfl
  | cons op ops ih =>
    intro fail h
    have h0 : fail 0 = none := h 0 (by simp)
    have ht := ih (fun n => fail (n + 1))
      (fun i hi => h (i + 1) (by simpa using Nat.succ_lt_succ hi))
    simp [execOps, h0, ht]

theorem execOps_stops :
    ∀ (ops : List FileOp) (fail : Nat → Option String) (j : Nat) (e : String),
      j < ops.length → fail j = some e → (∀ i, i < j → fail i = none) →
      execOps fail ops = (ops.take j, some e) := by
  intro ops
  induction ops with
  | nil => intro fail j e hj _ _; simp at hj
  | cons op ops ih =>
    intro fail j e hj hfj hlt
    cases j with
    | zero => simp [execOps, hfj]
    | succ k =>
      have h0 : fail 0 = none := hlt 0 (Nat.succ_pos k)
      have ht := ih (fun n => fail (n + 1)) k e (by simpa using hj) hfj
        (fun i hi => hlt (i + 1) (Nat.succ_lt_succ hi))
      simp [execOps, h0, ht]

theorem scriptOps_length : scriptOps.length = allWrites.length + 2 := by
  simp [scriptOps]

theorem opRelease_not_mem_front :
    FileOp.opRelease ∉ (FileOp.opAcquire :: allWrites.map FileOp.opWrite) := by
  simp [List.mem_map]

theorem count_opAcquire : scriptOps.count FileOp.opAcquire = 1 := by
  rw [show scriptOps =
      (FileOp.opAcquire :: allWrites.map FileOp.opWrite) ++ [FileOp.opRelease] from rfl,
    List.count_append, List.count_cons_self, List.count_eq_zero.2 (by simp)]
  rfl

theorem count_opRelease : scriptOps.count FileOp.opRelease = 1 := by
  rw [show scriptOps =
      (FileOp.opAcquire :: allWrites.map FileOp.opWrite) ++ [FileOp.opRelease] from rfl,
    List.count_append, List.count_cons_of_ne (by simp), List.count_eq_zero.2 (by simp)]
  rfl

/-- A failure oracle that makes the first write (operation index 1) raise. -/
def failAt1 : Nat → Option String := fun n => if n = 1 then some "Errno 13" else none

/-- The failure oracle of an error-free run. -/
def noFail : Nat → Option String := fun _ => none

theorem flatten_map_singleton {α β : Type} (f : α → β) :
    ∀ l : List α, (l.map (fun a => [f a])).flatten = l.map f := by
  intro l
  induction l with
  | nil => rfl
  | cons a l ih => simp [ih]

set_option maxHeartbeats 1000000 in
theorem filter_block : ∀ x ∈ loopRange,
    (claimBlockLines x).filter (fun l => l.head? == some '[') =
      [("[Drum " ++ toString x ++ "]").data] := by
  decide

set_option maxHeartbeats 1000000 in
theorem printable_block : ∀ x ∈ loopRange, ∀ w ∈ blockWrites x, ∀ c ∈ w.data,
    (c = '\n' ∨ (32 ≤ c.toNat ∧ c.toNat ≤ 126)) ∧ c ≠ '\r' := by
  decide

theorem printable_headerWrite : ∀ c ∈ headerWrite.data,
    (c = '\n' ∨ (32 ≤ c.toNat ∧ c.toNat ≤ 126)) ∧ c ≠ '\r' := by
  decide

theorem printable_trailerWrite : ∀ c ∈ trailerWrite.data,
    (c = '\n' ∨ (32 ≤ c.toNat ∧ c.toNat ≤ 126)) ∧ c ≠ '\r' := by
  decide

theorem last_char : notemapOutput.data.getLast? = some 'i' := by
  rw [notemapOutput_data,
    List.getLast?_append_of_ne_nil _ (by simp [trailerWrite]),
    List.getLast?_append_of_ne_nil _ (by simp [trailerWrite])]
  decide

theorem specLines_length : specLines.length = 815 := by
  decide

/-! ## Claim theorems -/

/-- C1: the generated file contains exactly 116 section blocks; the lines of
the file starting a section (those beginning with '[') are exactly the
headers `[Drum N]` for `N` ranging over the loop range, which has length
116, is strictly ascending, covers exactly the integers 12..127, and
contains each of them exactly once. -/
theorem c1_drum_sections :
    fileLines.filter (fun l => l.head? == some '[') =
        loopRange.map (fun N => ("[Drum " ++ toString N ++ "]").data) ∧
      loopRange.length = 116 ∧
      List.Pairwise (· < ·) loopRange ∧
      (∀ N : Nat, N ∈ loopRange ↔ 12 ≤ N ∧ N ≤ 127) ∧
      loopRange.Nodup := by
  refine ⟨?_, by decide, by decide, ?_, by decide⟩
  · rw [fileLines_eq]
    rw [show specLines =
        ("Test notemap file: test.notemap").data :: ([] : List Char) ::
          ((loopRange.map claimBlockLines).flatten ++
            [("# vim: sw=4 ts=4 wm=4 et ft=dosini").data]) from rfl]
    rw [List.filter_cons_of_neg (by decide), List.filter_cons_of_neg (by decide),
      List.filter_append, List.filter_flatten, List.map_map]
    rw [show List.filter (fun l => l.head? == some '[')
        [("# vim: sw=4 ts=4 wm=4 et ft=dosini").data] = [] from by decide]
    rw [List.append_nil]
    simp only [Function.comp_def]
    rw [List.map_congr_left (fun x hx => filter_block x hx),
      flatten_map_singleton]
  · intro N
    simp only [loopRange, List.mem_range'_1]
    omega

/-- C2: for every `N` in the loop range, the bytes the script writes for the
block `[Drum N]` are exactly the header line, a blank line, the four
key-value lines with `dev-name = "Dev note N"`, `gm-name = "GM note N-12"`,
`dev-note = N`, `gm-note = N-12`, and a blank line, each terminated by a
newline; moreover these blocks are exactly what the file's lines contain
between the two header lines and the trailer. -/
theorem c2_block_content :
    (∀ N ∈ loopRange,
      ((blockWrites N).map String.data).flatten =
        ((claimBlockLines N).map (fun l => l ++ ['\n'])).flatten) ∧
    fileLines = ("Test notemap file: test.notemap").data :: ([] : List Char) ::
      ((loopRange.map claimBlockLines).flatten ++
        [("# vim: sw=4 ts=4 wm=4 et ft=dosini").data]) :=
  ⟨blockChunk_eq, fileLines_eq⟩

/-- Witness for C2 at the concrete block `N = 12`. -/
theorem c2_block_content_witness :
    ((blockWrites 12).map String.data).flatten =
      ((claimBlockLines 12).map (fun l => l ++ ['\n'])).flatten :=
  c2_block_content.1 12 (by decide)

/-- C3: the file begins with the line `Test notemap file: test.notemap`
followed by a blank line, and ends with the literal vim modeline with no
trailing newline (its last character is 'i'). -/
theorem c3_header_trailer :
    (∃ rest, notemapOutput.data =
      ("Test notemap file: test.notemap\n\n").data ++ rest) ∧
    (∃ front, notemapOutput.data =
      front ++ ("# vim: sw=4 ts=4 wm=4 et ft=dosini").data) ∧
    notemapOutput.data.getLast? ≠ some '\n' := by
  refine ⟨?_, ?_, ?_⟩
  · refine ⟨(loopRange.map
        (fun x => ((blockWrites x).map String.data).flatten)).flatten ++
          trailerWrite.data, ?_⟩
    rw [notemapOutput_data,
      show ("Test notemap file: test.notemap\n\n").data = headerWrite.data from by decide]
  · refine ⟨headerWrite.data ++ (loopRange.map
        (fun x => ((blockWrites x).map String.data).flatten)).flatten, ?_⟩
    rw [notemapOutput_data, List.append_assoc]
    rfl
  · rw [last_char]
    decide

/-- C4: a run is deterministic and idempotent; the bytes of `test.notemap`
after a second run equal those after the first, and the output never depends
on the prior content of the file system. -/
theorem c4_idempotent :
    (∀ fs : FileSystem, runScript (runScript fs) fileName = runScript fs fileName) ∧
    (∀ fs fs' : FileSystem, runScript fs fileName = runScript fs' fileName) := by
  constructor <;> intros <;> simp [runScript]

/-- C5: if the `j`-th file operation fails (and none before it did), the
script performs exactly the operations before `j` once each, stops, and the
result is the original error `e`, uncaught and unaltered: every filesystem
failure is fatal, with no retry, recovery or special reporting. -/
theorem c5_errors_fatal :
    ∀ (fail : Nat → Option String) (j : Nat) (e : String),
      j < scriptOps.length → fail j = some e → (∀ i, i < j → fail i = none) →
      execOps fail scriptOps = (scriptOps.take j, some e) :=
  fun fail j e hj hfj hlt => execOps_stops scriptOps fail j e hj hfj hlt

/-- Witness for C5: the first write (operation 1) fails with "Errno 13". -/
theorem c5_errors_fatal_witness :
    execOps failAt1 scriptOps = (scriptOps.take 1, some "Errno 13") :=
  c5_errors_fatal failAt1 1 "Errno 13" (by decide) (by decide) (by decide)

/-- C6: the only effect of a run is on the single name `test.notemap`: every
other file is untouched, and nothing of the prior file system is read (the
written content is the same for any two prior file systems). -/
theorem c6_frame :
    (∀ (fs : FileSystem) (n : String), n ≠ fileName → runScript fs n = fs n) ∧
    (∀ fs fs' : FileSystem, runScript fs fileName = runScript fs' fileName) := by
  constructor
  · intro fs n h
    simp [runScript, h]
  · intro fs fs'
    simp [runScript]

/-- Witness for C6 at the concrete name "other.txt". -/
theorem c6_frame_witness :
    runScript (fun _ => none) "other.txt" = (none : Option String) :=
  c6_frame.1 (fun _ => none) "other.txt" (by decide)

/-- C7: the handle is acquired exactly once, first, and released exactly
once, last, on the error-free path; and if any write fails before `close`,
the release operation is never executed (and the error propagates). -/
theorem c7_handle_lifecycle :
    (∀ fail : Nat → Option String,
      (∀ i, i < scriptOps.length → fail i = none) →
      execOps fail scriptOps = (scriptOps, none)) ∧
    scriptOps.head? = some FileOp.opAcquire ∧
    scriptOps.getLast? = some FileOp.opRelease ∧
    scriptOps.count FileOp.opAcquire = 1 ∧
    scriptOps.count FileOp.opRelease = 1 ∧
    (∀ (fail : Nat → Option String) (j : Nat) (e : String),
      1 ≤ j → j ≤ allWrites.length → fail j = some e →
      (∀ i, i < j → fail i = none) →
      FileOp.opRelease ∉ (execOps fail scriptOps).1 ∧
        (execOps fail scriptOps).2 = some e) := by
  refine ⟨fun fail h => execOps_ok scriptOps fail h, rfl, ?_,
    count_opAcquire, count_opRelease, ?_⟩
  · rw [show scriptOps =
        (FileOp.opAcquire :: allWrites.map FileOp.opWrite) ++ [FileOp.opRelease] from rfl,
      List.getLast?_concat]
  · intro fail j e h1 hj hfj hlt
    have hjlt : j < scriptOps.length := by
      rw [scriptOps_length]; omega
    rw [execOps_stops scriptOps fail j e hjlt hfj hlt]
    refine ⟨?_, rfl⟩
    have htake : scriptOps.take j =
        (FileOp.opAcquire :: allWrites.map FileOp.opWrite).take j := by
      rw [show scriptOps =
          (FileOp.opAcquire :: allWrites.map FileOp.opWrite) ++ [FileOp.opRelease] from rfl]
      exact List.take_append_of_le_length (by simp; omega)
    rw [htake]
    intro hmem
    exact opRelease_not_mem_front (List.take_subset _ _ hmem)

/-- Witness for C7: a clean run executes all operations, and a run whose
first write fails never executes the release. -/
theorem c7_handle_lifecycle_witness :
    execOps noFail scriptOps = (scriptOps, none) ∧
      FileOp.opRelease ∉ (execOps failAt1 scriptOps).1 :=
  ⟨c7_handle_lifecycle.1 noFail (fun _ _ => rfl),
   (c7_handle_lifecycle.2.2.2.2.2 failAt1 1 "Errno 13"
      (le_refl 1) (by decide) (by decide) (by decide)).1⟩

/-- C8: the bytes written are identical for any two invocations, whatever
the command-line arguments and environment are: the effect ignores both. -/
theorem c8_no_argv_env :
    ∀ (argv₁ : List String) (env₁ : String → Option String)
      (argv₂ : List String) (env₂ : String → Option String) (fs : FileSystem),
      runScriptFull argv₁ env₁ fs = runScriptFull argv₂ env₂ fs :=
  fun _ _ _ _ _ => rfl

/-- C9: every character of the generated file is either the line feed '\n'
or a printable ASCII character (code 32..126); in particular the script
never writes '\r', so every line terminator is a single '\n'. -/
theorem c9_printable_ascii :
    ∀ c ∈ notemapOutput.data,
      (c = '\n' ∨ (32 ≤ c.toNat ∧ c.toNat ≤ 126)) ∧ c ≠ '\r' := by
  intro c hc
  rw [notemapOutput_data] at hc
  rcases List.mem_append.1 hc with h | h
  · exact printable_headerWrite c h
  · rcases List.mem_append.1 h with h | h
    · rcases List.mem_flatten.1 h with ⟨chunk, hchunk, hcchunk⟩
      rcases List.mem_map.1 hchunk with ⟨x, hx, rfl⟩
      rcases List.mem_flatten.1 hcchunk with ⟨wd, hwd, hcw⟩
      rcases List.mem_map.1 hwd with ⟨w, hw, rfl⟩
      exact printable_block x hx w hw c hcw
    · exact printable_trailerWrite c h

/-- The first character of the output, a concrete member of its data. -/
theorem mem_T_output : 'T' ∈ notemapOutput.data := by
  rw [notemapOutput_data]
  exact List.mem_append_left _ (by decide)

/-- Witness for C9 at the concrete character 'T'. -/
theorem c9_printable_ascii_witness :
    ('T' = '\n' ∨ (32 ≤ 'T'.toNat ∧ 'T'.toNat ≤ 126)) ∧ 'T' ≠ '\r' :=
  c9_printable_ascii 'T' mem_T_output

/-- C10: the generated file contains exactly 814 line feed characters, hence
consists of exactly 815 lines, and only the last line is unterminated (the
file's last character is not a newline). -/
theorem c10_line_count :
    notemapOutput.data.count '\n' = 814 ∧
      fileLines.length = 815 ∧
      notemapOutput.data.getLast? ≠ some '\n' := by
  refine ⟨?_, ?_, ?_⟩
  · rw [output_eq_joinLines,
      count_newline_joinLines specLines (by simp [specLines]) noNewline_specLines,
      specLines_length]
  · rw [fileLines_eq, specLines_length]
  · rw [last_char]
    decide

end Notemapgen
